import Mathlib

/-!
Verification of the knowledge-cache `FileFolderProvider`
(src/community_intern/knowledge_cache/providers/file_folder.py)
against the design specification.

The provider's four operations (`discover`, `init_record`, `refresh`,
`load_text`) are embedded as pure functions.  Filesystem interaction is
modelled by an explicit environment `FS` giving, per source id, the result
of `Path.stat` and of `Path.read_text`; the content digest `hash_text` and
the timestamp formatter are abstracted as function parameters, since the
hashing utility module is external to the provider file.
-/

/-- Modelled from the spec: result of a successful `stat` call — the two
fields the provider reads (`st_size`, `st_mtime_ns`). -/
structure Stat where
  st_size : Int
  st_mtime_ns : Int
deriving DecidableEq, Repr

/-- Outcome of `Path.read_text(encoding="utf-8")`: success with the decoded
text, a `UnicodeDecodeError`, or an `OSError`. -/
inductive ReadResult where
  | ok (text : String)
  | decodeError
  | osError
deriving DecidableEq, Repr

/-- Filesystem environment seen by the provider during one pass, keyed by
source id (the provider's `_file_sources` index maps each source id to the
path on which `stat`/`read_text` are called; we key the environment by the
source id directly).  `stat` returns `none` on `OSError`. -/
structure FS where
  stat : String → Option Stat
  read : String → ReadResult

/-- Modelled from the spec: `FileMetadata` — the cheap fingerprint
`{rel_path, size_bytes, mtime_ns}` carried by file-kind records. -/
structure FileMetadata where
  rel_path : String
  size_bytes : Int
  mtime_ns : Int
deriving DecidableEq, Repr

/-- Modelled from the spec: `CacheRecord` — one persisted record;
identity (the source id) is external, held by the `CacheState` key. -/
structure CacheRecord where
  source_type : String
  content_hash : String
  summary_text : String
  last_indexed_at : String
  summary_pending : Bool
  file : Option FileMetadata
deriving DecidableEq, Repr

/-- Modelled from the spec: `CacheState` — the mapping from source id to
`CacheRecord`, embedded as an association list whose keys are unique in any
state produced by the Python `dict`. -/
structure CacheState where
  sources : List (String × CacheRecord)
deriving DecidableEq, Repr

/-- First-occurrence lookup in an association list: `dict.get`. -/
def lookupFirst (k : String) : List (String × CacheRecord) → Option CacheRecord
  | [] => none
  | e :: rest => if e.1 = k then some e.2 else lookupFirst k rest

/-- Replace the value stored at the first occurrence of key `k`: in-place
mutation of the record object held under `k` in the Python `dict`. -/
def setFirst (k : String) (v : CacheRecord) :
    List (String × CacheRecord) → List (String × CacheRecord)
  | [] => []
  | e :: rest => if e.1 = k then (k, v) :: rest else e :: setFirst k v rest

/-- Per-record outcome of one iteration of the `refresh` loop body:
the (possibly updated) record, whether `changed` was set in this iteration,
and how many `read_text` calls and hash computations it performed. -/
structure StepResult where
  record : CacheRecord
  changed : Bool
  reads : Nat
  hashes : Nat
deriving DecidableEq, Repr

/-- Body of the `refresh` loop for one known source (file_folder.py lines
97–133), applied to the record found in the cache: skip non-file records;
`stat` (on `OSError`, leave untouched); build the comparison fingerprint,
falling back to the fresh stat values when `record.file` is absent; skip
when size and mtime both match; otherwise `read_text` (on failure, leave
untouched), recompute the hash, unconditionally replace the fingerprint,
and set hash and pending flag when the hash differs or was already pending. -/
def stepRecord (hash_text : String → String) (fs : FS) (rel_path : String)
    (record : CacheRecord) : StepResult :=
  if record.source_type ≠ "file" then ⟨record, false, 0, 0⟩
  else
    match fs.stat rel_path with
    | none => ⟨record, false, 0, 0⟩
    | some st =>
      let file_meta := record.file.getD ⟨rel_path, st.st_size, st.st_mtime_ns⟩
      if file_meta.size_bytes = st.st_size ∧ file_meta.mtime_ns = st.st_mtime_ns then
        ⟨record, false, 0, 0⟩
      else
        match fs.read rel_path with
        | ReadResult.decodeError => ⟨record, false, 1, 0⟩
        | ReadResult.osError => ⟨record, false, 1, 0⟩
        | ReadResult.ok text =>
          let content_hash := hash_text text
          let withMeta : CacheRecord :=
            { record with file := some ⟨rel_path, st.st_size, st.st_mtime_ns⟩ }
          let updated : CacheRecord :=
            if content_hash ≠ record.content_hash ∨ record.summary_pending = true then
              { withMeta with content_hash := content_hash, summary_pending := true }
            else withMeta
          ⟨updated, true, 1, 1⟩

/-- Aggregate result of `refresh`: the updated cache mapping, the `changed`
flag, and the total `read_text` / hash-computation counts. -/
structure RefreshResult where
  sources : List (String × CacheRecord)
  changed : Bool
  reads : Nat
  hashes : Nat
deriving DecidableEq, Repr

/-- One full iteration of the `refresh` loop for source id `rel_path`:
look the record up (absent records are skipped) and run the loop body;
the cache is mutated exactly when the body set `changed`. -/
def refreshOne (hash_text : String → String) (fs : FS) (rel_path : String)
    (sources : List (String × CacheRecord)) : RefreshResult :=
  match lookupFirst rel_path sources with
  | none => ⟨sources, false, 0, 0⟩
  | some record =>
    let s := stepRecord hash_text fs rel_path record
    ⟨if s.changed then setFirst rel_path s.record sources else sources,
     s.changed, s.reads, s.hashes⟩

/-- The `refresh` loop over the provider's `_file_sources` index, threading
the cache and OR-ing the per-iteration `changed` flags. -/
def refreshGo (hash_text : String → String) (fs : FS) :
    List String → List (String × CacheRecord) → RefreshResult
  | [], sources => ⟨sources, false, 0, 0⟩
  | r :: rest, sources =>
    let s1 := refreshOne hash_text fs r sources
    let s2 := refreshGo hash_text fs rest s1.sources
    ⟨s2.sources, s1.changed || s2.changed, s1.reads + s2.reads, s1.hashes + s2.hashes⟩

/-- `FileFolderProvider.refresh` (file_folder.py lines 90–136).  `now` is a
parameter of the Python signature that the body never uses. -/
def refresh (hash_text : String → String) (fs : FS) (file_sources : List String)
    (cache : CacheState) (_now : String) : RefreshResult :=
  refreshGo hash_text fs file_sources cache.sources

/-- `FileFolderProvider.init_record` (file_folder.py lines 53–88): absent
when the source id is not in the index, when `stat` raises, or when the
read raises (`UnicodeDecodeError` or `OSError`); otherwise a fresh record
with `source_type = "file"`, the hash of the text just read, empty summary,
`summary_pending = true`, and the fingerprint taken from the stat.
`now` enters only through the timestamp formatter, so we take the already
formatted string. -/
def init_record (hash_text : String → String) (fs : FS)
    (file_sources : List String) (source_id : String) (now : String) :
    Option CacheRecord :=
  if source_id ∈ file_sources then
    match fs.stat source_id with
    | none => none
    | some st =>
      match fs.read source_id with
      | ReadResult.decodeError => none
      | ReadResult.osError => none
      | ReadResult.ok text =>
        some { source_type := "file", content_hash := hash_text text,
               summary_text := "", last_indexed_at := now,
               summary_pending := true,
               file := some ⟨source_id, st.st_size, st.st_mtime_ns⟩ }
  else none

/-- `FileFolderProvider.load_text` (file_folder.py lines 138–146): absent
for an unknown source id or on any read or decode failure. -/
def load_text (fs : FS) (file_sources : List String) (source_id : String) :
    Option String :=
  if source_id ∈ file_sources then
    match fs.read source_id with
    | ReadResult.ok text => some text
    | ReadResult.decodeError => none
    | ReadResult.osError => none
  else none

/-- One directory entry yielded by `rglob("*")` on the sources root: its
path components relative to the root, and whether `is_file()` holds. -/
structure FSEntry where
  comps : List String
  isFile : Bool
deriving DecidableEq, Repr

/-- The sources directory as seen by `discover`: whether the root exists,
and the recursive listing of its proper descendants. -/
structure FSTree where
  rootExists : Bool
  entries : List FSEntry
deriving DecidableEq, Repr

/-- `file_path.name`: the final path component. -/
def entryName (comps : List String) : String := (comps.getLast?).getD ""

/-- `sources[rel_path] = "file"`: Python `dict` assignment on an
association list — replace the value at the first occurrence of the key,
or append a new binding. -/
def dictInsert (k v : String) : List (String × String) → List (String × String)
  | [] => [(k, v)]
  | e :: rest => if e.1 = k then (k, v) :: rest else e :: dictInsert k v rest

/-- `name.startswith(".")` for the single-character pattern ".": whether
the first character of the string is a dot. -/
def startsWithDot (s : String) : Bool :=
  match s.data with
  | [] => false
  | c :: _ => c = '.'

/-- One iteration of the `discover` walk (file_folder.py lines 30–43):
keep regular files whose final name does not start with ".", recorded as
source type "file" under the root-relative forward-slash path. -/
def discoverStep (acc : List (String × String)) (e : FSEntry) :
    List (String × String) :=
  if e.isFile = true ∧ startsWithDot (entryName e.comps) = false then
    dictInsert (String.intercalate "/" e.comps) "file" acc
  else acc

/-- `FileFolderProvider.discover` (file_folder.py lines 19–51): empty when
the root is missing; otherwise walk every entry with `discoverStep`. -/
def discover (t : FSTree) : List (String × String) :=
  if t.rootExists = false then []
  else t.entries.foldl discoverStep []

/-! ### Fixtures used to instantiate the abstract hash function and
filesystem in concrete evaluations -/

/-- A concrete digest function for concrete evaluations. -/
def hashDemo : String → String := fun s => String.append "#" s

/-- A cached file record whose fingerprint is `(5, 100)` and whose hash
matches the text "hello" under `hashDemo`. -/
def recDemo : CacheRecord :=
  { source_type := "file", content_hash := "#hello", summary_text := "old summary",
    last_indexed_at := "2020-01-01T00:00:00Z", summary_pending := false,
    file := some ⟨"a.txt", 5, 100⟩ }

/-- A file record carrying no file metadata. -/
def recNoMeta : CacheRecord :=
  { source_type := "file", content_hash := "#hello", summary_text := "",
    last_indexed_at := "2020-01-01T00:00:00Z", summary_pending := false,
    file := none }

/-- A cached file record that is already awaiting summarization. -/
def recPending : CacheRecord :=
  { source_type := "file", content_hash := "#hello", summary_text := "",
    last_indexed_at := "2020-01-01T00:00:00Z", summary_pending := true,
    file := some ⟨"a.txt", 5, 100⟩ }

/-- A record of a non-file source type. -/
def recWeb : CacheRecord :=
  { source_type := "web", content_hash := "#page", summary_text := "",
    last_indexed_at := "2020-01-01T00:00:00Z", summary_pending := false,
    file := none }

/-- Filesystem where the stat still matches `recDemo`'s fingerprint but the
content on disk differs from the cached hash. -/
def fsSame : FS :=
  { stat := fun _ => some ⟨5, 100⟩, read := fun _ => ReadResult.ok "tampered" }

/-- Filesystem where the file was edited: new stat `(6, 200)`, new text. -/
def fsEdit : FS :=
  { stat := fun _ => some ⟨6, 200⟩, read := fun _ => ReadResult.ok "hello!" }

/-- Filesystem where the file changed and its content no longer decodes. -/
def fsBadText : FS :=
  { stat := fun _ => some ⟨6, 200⟩, read := fun _ => ReadResult.decodeError }

/-- Filesystem where the file changed and reading it raises `OSError`. -/
def fsReadErr : FS :=
  { stat := fun _ => some ⟨6, 200⟩, read := fun _ => ReadResult.osError }

/-- Filesystem where `stat` raises `OSError`. -/
def fsStatErr : FS :=
  { stat := fun _ => none, read := fun _ => ReadResult.ok "hello" }

/-- A small sources tree: a regular file `docs/a.txt`, the directory
`docs`, and a hidden regular file `.hidden`. -/
def treeDemo : FSTree :=
  { rootExists := true,
    entries := [⟨["docs", "a.txt"], true⟩, ⟨["docs"], false⟩, ⟨[".hidden"], true⟩] }

/-! ### Association-list lemmas -/

lemma setFirst_map_fst (k : String) (v : CacheRecord)
    (l : List (String × CacheRecord)) :
    (setFirst k v l).map Prod.fst = l.map Prod.fst := by
  induction l with
  | nil => rfl
  | cons e rest ih =>
    simp only [setFirst]
    by_cases h : e.1 = k
    · simp [h]
    · simp [h, ih]

lemma lookupFirst_setFirst_ne (k r : String) (v : CacheRecord)
    (l : List (String × CacheRecord)) (hne : k ≠ r) :
    lookupFirst k (setFirst r v l) = lookupFirst k l := by
  induction l with
  | nil => rfl
  | cons e rest ih =>
    simp only [setFirst, lookupFirst]
    by_cases h : e.1 = r
    · simp [lookupFirst, h, Ne.symm hne, hne]
    · simp only [h, if_false, lookupFirst]
      by_cases h2 : e.1 = k
      · simp [h2]
      · simp [h2, ih]

lemma lookupFirst_setFirst_self (r : String) (v : CacheRecord)
    (l : List (String × CacheRecord)) (w : CacheRecord)
    (hw : lookupFirst r l = some w) :
    lookupFirst r (setFirst r v l) = some v := by
  induction l with
  | nil => simp [lookupFirst] at hw
  | cons e rest ih =>
    simp only [setFirst, lookupFirst] at hw ⊢
    by_cases h : e.1 = r
    · simp [h, lookupFirst]
    · simp only [h, if_false, lookupFirst] at hw ⊢
      exact ih hw

/-! ### Case lemmas for the refresh loop body -/

lemma stepRecord_not_file (hash_text : String → String) (fs : FS) (r : String)
    (record : CacheRecord) (ht : record.source_type ≠ "file") :
    stepRecord hash_text fs r record = ⟨record, false, 0, 0⟩ := by
  unfold stepRecord; simp [ht]

lemma stepRecord_stat_none (hash_text : String → String) (fs : FS) (r : String)
    (record : CacheRecord) (hst : fs.stat r = none) :
    stepRecord hash_text fs r record = ⟨record, false, 0, 0⟩ := by
  unfold stepRecord
  by_cases ht : record.source_type = "file"
  · simp [ht, hst]
  · simp [ht]

lemma stepRecord_skip (hash_text : String → String) (fs : FS) (r : String)
    (record : CacheRecord) (st : Stat)
    (ht : record.source_type = "file") (hst : fs.stat r = some st)
    (hm : (record.file.getD ⟨r, st.st_size, st.st_mtime_ns⟩).size_bytes = st.st_size ∧
          (record.file.getD ⟨r, st.st_size, st.st_mtime_ns⟩).mtime_ns = st.st_mtime_ns) :
    stepRecord hash_text fs r record = ⟨record, false, 0, 0⟩ := by
  unfold stepRecord
  simp [ht, hst, hm]

lemma stepRecord_read_decode (hash_text : String → String) (fs : FS) (r : String)
    (record : CacheRecord) (st : Stat)
    (ht : record.source_type = "file") (hst : fs.stat r = some st)
    (hm : ¬((record.file.getD ⟨r, st.st_size, st.st_mtime_ns⟩).size_bytes = st.st_size ∧
            (record.file.getD ⟨r, st.st_size, st.st_mtime_ns⟩).mtime_ns = st.st_mtime_ns))
    (hrd : fs.read r = ReadResult.decodeError) :
    stepRecord hash_text fs r record = ⟨record, false, 1, 0⟩ := by
  unfold stepRecord
  simp [ht, hst, hm, hrd]

lemma stepRecord_read_os (hash_text : String → String) (fs : FS) (r : String)
    (record : CacheRecord) (st : Stat)
    (ht : record.source_type = "file") (hst : fs.stat r = some st)
    (hm : ¬((record.file.getD ⟨r, st.st_size, st.st_mtime_ns⟩).size_bytes = st.st_size ∧
            (record.file.getD ⟨r, st.st_size, st.st_mtime_ns⟩).mtime_ns = st.st_mtime_ns))
    (hrd : fs.read r = ReadResult.osError) :
    stepRecord hash_text fs r record = ⟨record, false, 1, 0⟩ := by
  unfold stepRecord
  simp [ht, hst, hm, hrd]

lemma stepRecord_update (hash_text : String → String) (fs : FS) (r : String)
    (record : CacheRecord) (st : Stat) (text : String)
    (ht : record.source_type = "file") (hst : fs.stat r = some st)
    (hm : ¬((record.file.getD ⟨r, st.st_size, st.st_mtime_ns⟩).size_bytes = st.st_size ∧
            (record.file.getD ⟨r, st.st_size, st.st_mtime_ns⟩).mtime_ns = st.st_mtime_ns))
    (hrd : fs.read r = ReadResult.ok text) :
    stepRecord hash_text fs r record =
      ⟨if hash_text text ≠ record.content_hash ∨ record.summary_pending = true then
         { record with file := some ⟨r, st.st_size, st.st_mtime_ns⟩,
                       content_hash := hash_text text, summary_pending := true }
       else { record with file := some ⟨r, st.st_size, st.st_mtime_ns⟩ },
       true, 1, 1⟩ := by
  unfold stepRecord
  simp only [ht, hst, hrd]
  simp [hm]

/-! ### Derived facts about the loop body -/

lemma stepRecord_cases (hash_text : String → String) (fs : FS) (r : String)
    (record : CacheRecord) :
    (stepRecord hash_text fs r record = ⟨record, false, 0, 0⟩) ∨
    (stepRecord hash_text fs r record = ⟨record, false, 1, 0⟩) ∨
    (∃ st text, fs.stat r = some st ∧ fs.read r = ReadResult.ok text ∧
      ¬((record.file.getD ⟨r, st.st_size, st.st_mtime_ns⟩).size_bytes = st.st_size ∧
        (record.file.getD ⟨r, st.st_size, st.st_mtime_ns⟩).mtime_ns = st.st_mtime_ns) ∧
      stepRecord hash_text fs r record =
        ⟨if hash_text text ≠ record.content_hash ∨ record.summary_pending = true then
           { record with file := some ⟨r, st.st_size, st.st_mtime_ns⟩,
                         content_hash := hash_text text, summary_pending := true }
         else { record with file := some ⟨r, st.st_size, st.st_mtime_ns⟩ },
         true, 1, 1⟩) := by
  by_cases ht : record.source_type = "file"
  · cases hst : fs.stat r with
    | none => exact Or.inl (stepRecord_stat_none hash_text fs r record hst)
    | some st =>
      by_cases hm : (record.file.getD ⟨r, st.st_size, st.st_mtime_ns⟩).size_bytes = st.st_size ∧
          (record.file.getD ⟨r, st.st_size, st.st_mtime_ns⟩).mtime_ns = st.st_mtime_ns
      · exact Or.inl (stepRecord_skip hash_text fs r record st ht hst hm)
      · cases hrd : fs.read r with
        | ok text =>
          exact Or.inr (Or.inr ⟨st, text, rfl, rfl, hm,
            stepRecord_update hash_text fs r record st text ht hst hm hrd⟩)
        | decodeError =>
          exact Or.inr (Or.inl (stepRecord_read_decode hash_text fs r record st ht hst hm hrd))
        | osError =>
          exact Or.inr (Or.inl (stepRecord_read_os hash_text fs r record st ht hst hm hrd))
  · exact Or.inl (stepRecord_not_file hash_text fs r record ht)

lemma stepRecord_last_indexed_at (hash_text : String → String) (fs : FS)
    (r : String) (record : CacheRecord) :
    (stepRecord hash_text fs r record).record.last_indexed_at =
      record.last_indexed_at := by
  rcases stepRecord_cases hash_text fs r record with h | h | ⟨st, text, _, _, _, h⟩ <;>
    rw [h]
  split <;> rfl

lemma stepRecord_summary_text (hash_text : String → String) (fs : FS)
    (r : String) (record : CacheRecord) :
    (stepRecord hash_text fs r record).record.summary_text = record.summary_text := by
  rcases stepRecord_cases hash_text fs r record with h | h | ⟨st, text, _, _, _, h⟩ <;>
    rw [h]
  split <;> rfl

lemma stepRecord_pending_mono (hash_text : String → String) (fs : FS)
    (r : String) (record : CacheRecord) (hp : record.summary_pending = true) :
    (stepRecord hash_text fs r record).record.summary_pending = true := by
  rcases stepRecord_cases hash_text fs r record with h | h | ⟨st, text, _, _, _, h⟩ <;>
    rw [h]
  · exact hp
  · exact hp
  · simp [hp]

lemma stepRecord_hash_change_pending (hash_text : String → String) (fs : FS)
    (r : String) (record : CacheRecord)
    (hne : (stepRecord hash_text fs r record).record.content_hash ≠ record.content_hash) :
    (stepRecord hash_text fs r record).record.summary_pending = true := by
  rcases stepRecord_cases hash_text fs r record with h | h | ⟨st, text, _, _, _, h⟩ <;>
    rw [h] at hne ⊢
  · simp at hne
  · simp at hne
  · split at hne <;> split <;> simp_all

lemma stepRecord_changed_spec (hash_text : String → String) (fs : FS)
    (r : String) (record : CacheRecord)
    (hch : (stepRecord hash_text fs r record).changed = true) :
    ∃ st, fs.stat r = some st ∧
      (stepRecord hash_text fs r record).record.file =
        some ⟨r, st.st_size, st.st_mtime_ns⟩ ∧
      record.file ≠ some (⟨r, st.st_size, st.st_mtime_ns⟩ : FileMetadata) := by
  rcases stepRecord_cases hash_text fs r record with h | h | ⟨st, text, hst, hrd, hm, h⟩
  · rw [h] at hch; simp at hch
  · rw [h] at hch; simp at hch
  · refine ⟨st, hst, ?_, ?_⟩
    · rw [h]; split <;> rfl
    · intro hcontra
      rw [hcontra] at hm
      simp [Option.getD] at hm

lemma stepRecord_changed_ne (hash_text : String → String) (fs : FS)
    (r : String) (record : CacheRecord)
    (hch : (stepRecord hash_text fs r record).changed = true) :
    (stepRecord hash_text fs r record).record ≠ record := by
  obtain ⟨st, _, hfile, hne⟩ := stepRecord_changed_spec hash_text fs r record hch
  intro hcontra
  rw [hcontra] at hfile
  exact hne hfile

/-! ### Facts about one loop iteration -/

lemma refreshOne_lookup_none (hash_text : String → String) (fs : FS)
    (r : String) (l : List (String × CacheRecord))
    (hl : lookupFirst r l = none) :
    refreshOne hash_text fs r l = ⟨l, false, 0, 0⟩ := by
  unfold refreshOne
  rw [hl]

lemma refreshOne_lookup_some (hash_text : String → String) (fs : FS)
    (r : String) (l : List (String × CacheRecord)) (record : CacheRecord)
    (hl : lookupFirst r l = some record) :
    refreshOne hash_text fs r l =
      ⟨if (stepRecord hash_text fs r record).changed
          then setFirst r (stepRecord hash_text fs r record).record l else l,
       (stepRecord hash_text fs r record).changed,
       (stepRecord hash_text fs r record).reads,
       (stepRecord hash_text fs r record).hashes⟩ := by
  unfold refreshOne
  rw [hl]

lemma refreshOne_map_fst (hash_text : String → String) (fs : FS)
    (r : String) (l : List (String × CacheRecord)) :
    (refreshOne hash_text fs r l).sources.map Prod.fst = l.map Prod.fst := by
  cases hl : lookupFirst r l with
  | none => rw [refreshOne_lookup_none hash_text fs r l hl]
  | some record =>
    rw [refreshOne_lookup_some hash_text fs r l record hl]
    dsimp only
    split
    · exact setFirst_map_fst r _ l
    · rfl

lemma refreshOne_changed_false (hash_text : String → String) (fs : FS)
    (r : String) (l : List (String × CacheRecord))
    (h : (refreshOne hash_text fs r l).changed = false) :
    (refreshOne hash_text fs r l).sources = l := by
  cases hl : lookupFirst r l with
  | none => rw [refreshOne_lookup_none hash_text fs r l hl]
  | some record =>
    rw [refreshOne_lookup_some hash_text fs r l record hl] at h ⊢
    dsimp only at h ⊢
    rw [h]
    simp

lemma refreshOne_changed_spec (hash_text : String → String) (fs : FS)
    (r : String) (l : List (String × CacheRecord))
    (h : (refreshOne hash_text fs r l).changed = true) :
    ∃ record, lookupFirst r l = some record ∧
      (stepRecord hash_text fs r record).changed = true ∧
      (refreshOne hash_text fs r l).sources =
        setFirst r (stepRecord hash_text fs r record).record l := by
  cases hl : lookupFirst r l with
  | none =>
    rw [refreshOne_lookup_none hash_text fs r l hl] at h
    simp at h
  | some record =>
    rw [refreshOne_lookup_some hash_text fs r l record hl] at h ⊢
    dsimp only at h ⊢
    exact ⟨record, rfl, h, by rw [h]; simp⟩

lemma refreshOne_lookup_ne (hash_text : String → String) (fs : FS)
    (k r : String) (l : List (String × CacheRecord)) (hne : k ≠ r) :
    lookupFirst k (refreshOne hash_text fs r l).sources = lookupFirst k l := by
  cases hch : (refreshOne hash_text fs r l).changed with
  | false => rw [refreshOne_changed_false hash_text fs r l hch]
  | true =>
    obtain ⟨record, _, _, hsrc⟩ := refreshOne_changed_spec hash_text fs r l hch
    rw [hsrc]
    exact lookupFirst_setFirst_ne k r _ l hne

lemma refreshOne_lookup_pres (hash_text : String → String) (fs : FS)
    (P : CacheRecord → Prop)
    (hP : ∀ rp rec, P rec → P (stepRecord hash_text fs rp rec).record)
    (r k : String) (l : List (String × CacheRecord)) (record : CacheRecord)
    (hlk : lookupFirst k l = some record) (hrec : P record) :
    ∃ rec2, lookupFirst k (refreshOne hash_text fs r l).sources = some rec2 ∧
      P rec2 := by
  by_cases hkr : k = r
  · subst hkr
    cases hch : (refreshOne hash_text fs k l).changed with
    | false =>
      rw [refreshOne_changed_false hash_text fs k l hch]
      exact ⟨record, hlk, hrec⟩
    | true =>
      obtain ⟨rec0, hlk0, _, hsrc⟩ := refreshOne_changed_spec hash_text fs k l hch
      rw [hlk0] at hlk
      injection hlk with hlk
      rw [hsrc]
      refine ⟨_, lookupFirst_setFirst_self k _ l rec0 hlk0, hP k rec0 ?_⟩
      rw [hlk]
      exact hrec
  · rw [refreshOne_lookup_ne hash_text fs k r l hkr]
    exact ⟨record, hlk, hrec⟩

/-! ### Facts about the whole refresh loop -/

lemma refreshGo_map_fst (hash_text : String → String) (fs : FS)
    (rs : List String) (l : List (String × CacheRecord)) :
    (refreshGo hash_text fs rs l).sources.map Prod.fst = l.map Prod.fst := by
  induction rs generalizing l with
  | nil => rfl
  | cons r rest ih =>
    show (refreshGo hash_text fs rest (refreshOne hash_text fs r l).sources).sources.map
        Prod.fst = l.map Prod.fst
    rw [ih, refreshOne_map_fst]

lemma refreshGo_lookup_notmem (hash_text : String → String) (fs : FS)
    (k : String) (rs : List String) (l : List (String × CacheRecord))
    (hk : k ∉ rs) :
    lookupFirst k (refreshGo hash_text fs rs l).sources = lookupFirst k l := by
  induction rs generalizing l with
  | nil => rfl
  | cons r rest ih =>
    show lookupFirst k (refreshGo hash_text fs rest
        (refreshOne hash_text fs r l).sources).sources = lookupFirst k l
    rw [ih _ (fun h => hk (List.mem_cons_of_mem r h)),
        refreshOne_lookup_ne hash_text fs k r l (fun h => hk (h ▸ List.mem_cons_self r rest))]

lemma refreshGo_changed_false (hash_text : String → String) (fs : FS)
    (rs : List String) (l : List (String × CacheRecord))
    (h : (refreshGo hash_text fs rs l).changed = false) :
    (refreshGo hash_text fs rs l).sources = l := by
  induction rs generalizing l with
  | nil => rfl
  | cons r rest ih =>
    have hsplit : (refreshGo hash_text fs (r :: rest) l).changed =
        ((refreshOne hash_text fs r l).changed ||
         (refreshGo hash_text fs rest (refreshOne hash_text fs r l).sources).changed) := rfl
    rw [hsplit] at h
    rcases Bool.or_eq_false_iff.mp h with ⟨h1, h2⟩
    show (refreshGo hash_text fs rest (refreshOne hash_text fs r l).sources).sources = l
    rw [ih _ h2, refreshOne_changed_false hash_text fs r l h1]

lemma refreshGo_lookup_pres (hash_text : String → String) (fs : FS)
    (P : CacheRecord → Prop)
    (hP : ∀ rp rec, P rec → P (stepRecord hash_text fs rp rec).record)
    (rs : List String) (l : List (String × CacheRecord)) (k : String)
    (record : CacheRecord)
    (hlk : lookupFirst k l = some record) (hrec : P record) :
    ∃ rec2, lookupFirst k (refreshGo hash_text fs rs l).sources = some rec2 ∧
      P rec2 := by
  induction rs generalizing l record with
  | nil => exact ⟨record, hlk, hrec⟩
  | cons r rest ih =>
    obtain ⟨rec1, hlk1, hrec1⟩ :=
      refreshOne_lookup_pres hash_text fs P hP r k l record hlk hrec
    exact ih _ _ hlk1 hrec1

lemma refreshGo_changed_sources_ne (hash_text : String → String) (fs : FS) :
    ∀ (rs : List String) (l : List (String × CacheRecord)), rs.Nodup →
      (refreshGo hash_text fs rs l).changed = true →
      (refreshGo hash_text fs rs l).sources ≠ l := by
  intro rs
  induction rs with
  | nil => intro l _ h; simp [refreshGo] at h
  | cons r rest ih =>
    intro l hnd h
    obtain ⟨hr, hrest⟩ := List.nodup_cons.mp hnd
    have hsplit : (refreshGo hash_text fs (r :: rest) l).changed =
        ((refreshOne hash_text fs r l).changed ||
         (refreshGo hash_text fs rest (refreshOne hash_text fs r l).sources).changed) := rfl
    have hsrc : (refreshGo hash_text fs (r :: rest) l).sources =
        (refreshGo hash_text fs rest (refreshOne hash_text fs r l).sources).sources := rfl
    rw [hsplit] at h
    rw [hsrc]
    cases h1 : (refreshOne hash_text fs r l).changed with
    | false =>
      rw [h1] at h
      simp only [Bool.false_or] at h
      rw [refreshOne_changed_false hash_text fs r l h1] at h ⊢
      exact ih _ hrest h
    | true =>
      obtain ⟨record, hlk, hst, hone⟩ := refreshOne_changed_spec hash_text fs r l h1
      have hne := stepRecord_changed_ne hash_text fs r record hst
      intro hcontra
      have h2 : lookupFirst r (refreshGo hash_text fs rest
          (refreshOne hash_text fs r l).sources).sources =
          lookupFirst r (refreshOne hash_text fs r l).sources :=
        refreshGo_lookup_notmem hash_text fs r rest _ hr
      rw [hcontra, hlk, hone,
          lookupFirst_setFirst_self r _ l record hlk] at h2
      exact hne (Option.some_injective _ h2.symm)

lemma refreshGo_changed_iff (hash_text : String → String) (fs : FS)
    (rs : List String) (l : List (String × CacheRecord)) (hnd : rs.Nodup) :
    (refreshGo hash_text fs rs l).changed = true ↔
      (refreshGo hash_text fs rs l).sources ≠ l := by
  constructor
  · exact refreshGo_changed_sources_ne hash_text fs rs l hnd
  · intro h
    by_contra hch
    exact h (refreshGo_changed_false hash_text fs rs l (Bool.eq_false_iff.mpr hch))

/-! ### Facts about discover -/

lemma dictInsert_values (k : String) (d : List (String × String))
    (hd : ∀ p ∈ d, p.2 = "file") :
    ∀ p ∈ dictInsert k "file" d, p.2 = "file" := by
  induction d with
  | nil =>
    intro p hp
    simp only [dictInsert, List.mem_singleton] at hp
    rw [hp]
  | cons e rest ih =>
    intro p hp
    simp only [dictInsert] at hp
    by_cases h : e.1 = k
    · rw [if_pos h] at hp
      rcases List.mem_cons.mp hp with h1 | h1
      · rw [h1]
      · exact hd p (List.mem_cons_of_mem e h1)
    · rw [if_neg h] at hp
      rcases List.mem_cons.mp hp with h1 | h1
      · exact hd p (h1 ▸ List.mem_cons_self e rest)
      · exact ih (fun q hq => hd q (List.mem_cons_of_mem e hq)) p h1

lemma dictInsert_mem (k v kk : String) (d : List (String × String))
    (hd : ∀ p ∈ d, p.2 = "file") :
    ((k, v) ∈ dictInsert kk "file" d) ↔
      ((k, v) ∈ d ∨ (k = kk ∧ v = "file")) := by
  induction d with
  | nil => simp [dictInsert, Prod.ext_iff]
  | cons e rest ih =>
    simp only [dictInsert]
    by_cases h : e.1 = kk
    · rw [if_pos h]
      have he : e = (kk, "file") := by
        have h2 := hd e (List.mem_cons_self e rest)
        calc e = (e.1, e.2) := rfl
        _ = (kk, "file") := by rw [h, h2]
      rw [he]
      simp only [List.mem_cons, Prod.ext_iff]
      tauto
    · rw [if_neg h]
      have ih2 := ih (fun q hq => hd q (List.mem_cons_of_mem e hq))
      simp only [List.mem_cons, ih2]
      tauto

lemma discoverStep_values (acc : List (String × String)) (e : FSEntry)
    (hacc : ∀ p ∈ acc, p.2 = "file") :
    ∀ p ∈ discoverStep acc e, p.2 = "file" := by
  intro p hp
  unfold discoverStep at hp
  split at hp
  · exact dictInsert_values _ acc hacc p hp
  · exact hacc p hp

lemma discoverFold_mem (entries : List FSEntry) :
    ∀ (acc : List (String × String)), (∀ p ∈ acc, p.2 = "file") →
    ∀ k v, ((k, v) ∈ entries.foldl discoverStep acc) ↔
      ((k, v) ∈ acc ∨ (v = "file" ∧ ∃ e ∈ entries, e.isFile = true ∧
        startsWithDot (entryName e.comps) = false ∧
        k = String.intercalate "/" e.comps)) := by
  induction entries with
  | nil =>
    intro acc hacc k v
    simp
  | cons e rest ih =>
    intro acc hacc k v
    rw [List.foldl_cons,
        ih (discoverStep acc e) (discoverStep_values acc e hacc) k v]
    unfold discoverStep
    by_cases hcond : e.isFile = true ∧ startsWithDot (entryName e.comps) = false
    · rw [if_pos hcond]
      rw [dictInsert_mem k v _ acc hacc]
      obtain ⟨hc1, hc2⟩ := hcond
      constructor
      · rintro ((h | ⟨h1, h2⟩) | ⟨h1, e1, he1, hp⟩)
        · exact Or.inl h
        · exact Or.inr ⟨h2, e, List.mem_cons_self e rest, hc1, hc2, h1⟩
        · exact Or.inr ⟨h1, e1, List.mem_cons_of_mem e he1, hp⟩
      · rintro (h | ⟨h1, e1, he1, hp1, hp2, hp3⟩)
        · exact Or.inl (Or.inl h)
        · rcases List.mem_cons.mp he1 with he | he
          · subst he
            exact Or.inl (Or.inr ⟨hp3, h1⟩)
          · exact Or.inr ⟨h1, e1, he, hp1, hp2, hp3⟩
    · rw [if_neg hcond]
      constructor
      · rintro (h | ⟨h1, e1, he1, hp⟩)
        · exact Or.inl h
        · exact Or.inr ⟨h1, e1, List.mem_cons_of_mem e he1, hp⟩
      · rintro (h | ⟨h1, e1, he1, hp1, hp2, hp3⟩)
        · exact Or.inl h
        · rcases List.mem_cons.mp he1 with he | he
          · subst he
            exact absurd ⟨hp1, hp2⟩ hcond
          · exact Or.inr ⟨h1, e1, he, hp1, hp2, hp3⟩

lemma lookupFirst_eq_none_iff (k : String) (l : List (String × CacheRecord)) :
    lookupFirst k l = none ↔ k ∉ l.map Prod.fst := by
  induction l with
  | nil => simp [lookupFirst]
  | cons e rest ih =>
    simp only [lookupFirst, List.map_cons, List.mem_cons]
    by_cases h : e.1 = k
    · simp [h]
    · simp [h, ih, Ne.symm h]

/-! ### The claims -/

/-- C1: for a known "file" record whose stored fingerprint (size_bytes,
mtime_ns) equals the current stat result, the refresh step performs no
file read and no hash computation for that source and leaves the record
unchanged; the read outcome is unconstrained, so this holds even when the
on-disk content differs from the cached hash. -/
theorem c1_fingerprint_match_short_circuit
    (hash_text : String → String) (fs : FS) (r : String)
    (record : CacheRecord) (fm : FileMetadata) (st : Stat)
    (ht : record.source_type = "file") (hfm : record.file = some fm)
    (hst : fs.stat r = some st)
    (hsz : fm.size_bytes = st.st_size) (hmt : fm.mtime_ns = st.st_mtime_ns) :
    stepRecord hash_text fs r record = ⟨record, false, 0, 0⟩ ∧
    ∀ l, lookupFirst r l = some record →
      refreshOne hash_text fs r l = ⟨l, false, 0, 0⟩ := by
  have hstep : stepRecord hash_text fs r record = ⟨record, false, 0, 0⟩ :=
    stepRecord_skip hash_text fs r record st ht hst (by rw [hfm]; exact ⟨hsz, hmt⟩)
  refine ⟨hstep, fun l hl => ?_⟩
  rw [refreshOne_lookup_some hash_text fs r l record hl, hstep]
  rfl

/-- C1 witness: `fsSame` leaves the stat at `recDemo`'s fingerprint while
the content on disk ("tampered") no longer matches the cached hash. -/
theorem c1_witness :
    stepRecord hashDemo fsSame "a.txt" recDemo = ⟨recDemo, false, 0, 0⟩ ∧
    refreshOne hashDemo fsSame "a.txt" [("a.txt", recDemo)] =
      ⟨[("a.txt", recDemo)], false, 0, 0⟩ := by
  have h := c1_fingerprint_match_short_circuit hashDemo fsSame "a.txt" recDemo
    ⟨"a.txt", 5, 100⟩ ⟨5, 100⟩ (by decide) (by decide) (by decide) (by decide)
    (by decide)
  exact ⟨h.1, h.2 [("a.txt", recDemo)] (by decide)⟩

/-- C10: a "file" record with absent file metadata gets its comparison
fingerprint built from the current stat, so the comparison trivially
matches: the record is skipped unchanged (metadata stays absent), with no
read, no hash, and no contribution to the changed flag. -/
theorem c10_missing_metadata_skipped
    (hash_text : String → String) (fs : FS) (r : String)
    (record : CacheRecord) (st : Stat)
    (ht : record.source_type = "file") (hfm : record.file = none)
    (hst : fs.stat r = some st) :
    stepRecord hash_text fs r record = ⟨record, false, 0, 0⟩ ∧
    (stepRecord hash_text fs r record).record.file = none ∧
    ∀ l, lookupFirst r l = some record →
      refreshOne hash_text fs r l = ⟨l, false, 0, 0⟩ := by
  have hstep : stepRecord hash_text fs r record = ⟨record, false, 0, 0⟩ :=
    stepRecord_skip hash_text fs r record st ht hst (by rw [hfm]; exact ⟨rfl, rfl⟩)
  refine ⟨hstep, by rw [hstep]; exact hfm, fun l hl => ?_⟩
  rw [refreshOne_lookup_some hash_text fs r l record hl, hstep]
  rfl

/-- C10 witness: `recNoMeta` under a filesystem whose stat succeeds. -/
theorem c10_witness :
    stepRecord hashDemo fsEdit "a.txt" recNoMeta = ⟨recNoMeta, false, 0, 0⟩ ∧
    (stepRecord hashDemo fsEdit "a.txt" recNoMeta).record.file = none ∧
    refreshOne hashDemo fsEdit "a.txt" [("a.txt", recNoMeta)] =
      ⟨[("a.txt", recNoMeta)], false, 0, 0⟩ := by
  have h := c10_missing_metadata_skipped hashDemo fsEdit "a.txt" recNoMeta
    ⟨6, 200⟩ (by decide) (by decide) (by decide)
  exact ⟨h.1, h.2.1, h.2.2 [("a.txt", recNoMeta)] (by decide)⟩

/-- C5: on a transient I/O failure — a stat error, or a read OSError after
a fingerprint mismatch — the refresh step leaves the record completely
unchanged, computes no hash, does not set the changed flag, and the loop
continues with the remaining sources: refresh over `r :: rest` produces
the same cache and changed flag as refresh over `rest` alone. -/
theorem c5_transient_failure_retry
    (hash_text : String → String) (fs : FS) (r : String)
    (record : CacheRecord) (fm : FileMetadata) (st : Stat)
    (ht : record.source_type = "file")
    (hfail : fs.stat r = none ∨
      (fs.stat r = some st ∧ record.file = some fm ∧
       ¬(fm.size_bytes = st.st_size ∧ fm.mtime_ns = st.st_mtime_ns) ∧
       fs.read r = ReadResult.osError)) :
    (stepRecord hash_text fs r record).record = record ∧
    (stepRecord hash_text fs r record).changed = false ∧
    (stepRecord hash_text fs r record).hashes = 0 ∧
    ∀ rest cache now, lookupFirst r cache.sources = some record →
      (refresh hash_text fs (r :: rest) cache now).sources =
        (refresh hash_text fs rest cache now).sources ∧
      (refresh hash_text fs (r :: rest) cache now).changed =
        (refresh hash_text fs rest cache now).changed := by
  have hstep : stepRecord hash_text fs r record = ⟨record, false, 0, 0⟩ ∨
      stepRecord hash_text fs r record = ⟨record, false, 1, 0⟩ := by
    rcases hfail with h | ⟨hst, hfm, hm, hrd⟩
    · exact Or.inl (stepRecord_stat_none hash_text fs r record h)
    · exact Or.inr (stepRecord_read_os hash_text fs r record st ht hst
        (by rw [hfm]; exact hm) hrd)
  have hrec : (stepRecord hash_text fs r record).record = record := by
    rcases hstep with h | h <;> rw [h]
  have hch : (stepRecord hash_text fs r record).changed = false := by
    rcases hstep with h | h <;> rw [h]
  have hhs : (stepRecord hash_text fs r record).hashes = 0 := by
    rcases hstep with h | h <;> rw [h]
  refine ⟨hrec, hch, hhs, ?_⟩
  intro rest cache now hl
  have hone : (refreshOne hash_text fs r cache.sources).sources = cache.sources ∧
      (refreshOne hash_text fs r cache.sources).changed = false := by
    rw [refreshOne_lookup_some hash_text fs r cache.sources record hl]
    rcases hstep with h | h <;> rw [h] <;> exact ⟨rfl, rfl⟩
  constructor
  · show (refreshGo hash_text fs rest
        (refreshOne hash_text fs r cache.sources).sources).sources =
      (refreshGo hash_text fs rest cache.sources).sources
    rw [hone.1]
  · show ((refreshOne hash_text fs r cache.sources).changed ||
        (refreshGo hash_text fs rest
          (refreshOne hash_text fs r cache.sources).sources).changed) =
      (refreshGo hash_text fs rest cache.sources).changed
    rw [hone.1, hone.2, Bool.false_or]

/-- C5 witness: a read OSError on an existing changed source and,
separately via the stat-failure disjunct, a stat error. -/
theorem c5_witness :
    (stepRecord hashDemo fsReadErr "a.txt" recDemo).record = recDemo ∧
    (refresh hashDemo fsReadErr ["a.txt", "b.txt"]
        ⟨[("a.txt", recDemo)]⟩ "t").sources =
      (refresh hashDemo fsReadErr ["b.txt"] ⟨[("a.txt", recDemo)]⟩ "t").sources ∧
    (stepRecord hashDemo fsStatErr "a.txt" recDemo).record = recDemo := by
  have h1 := c5_transient_failure_retry hashDemo fsReadErr "a.txt" recDemo
    ⟨"a.txt", 5, 100⟩ ⟨6, 200⟩ (by decide)
    (Or.inr ⟨by decide, by decide, by decide, by decide⟩)
  have h2 := c5_transient_failure_retry hashDemo fsStatErr "a.txt" recDemo
    ⟨"a.txt", 5, 100⟩ ⟨6, 200⟩ (by decide) (Or.inl (by decide))
  exact ⟨h1.1,
    (h1.2.2.2 ["b.txt"] ⟨[("a.txt", recDemo)]⟩ "t" (by decide)).1, h2.1⟩

/-- C4 counterexample: `recDemo` is cached for "a.txt"; the on-disk content
changed (stat now (6, 200)) and became undecodable, so the refresh pass
detects the decode failure (it performs the one read), yet the record
remains in the cache, unchanged — contradicting the claim that the source
is excluded from the CacheState by that pass. -/
theorem c4_counterexample :
    (refresh hashDemo fsBadText ["a.txt"] ⟨[("a.txt", recDemo)]⟩ "t").sources =
      [("a.txt", recDemo)] ∧
    (refresh hashDemo fsBadText ["a.txt"] ⟨[("a.txt", recDemo)]⟩ "t").reads = 1 ∧
    lookupFirst "a.txt"
        (refresh hashDemo fsBadText ["a.txt"] ⟨[("a.txt", recDemo)]⟩ "t").sources =
      some recDemo := by
  decide

/-- C4 amended: an undecodable source never enters the cache through
init_record, which returns absent on decode failure; but a previously
cached record whose content has become undecodable is not removed: the
refresh step that hits the decode failure leaves the record in the cache
unchanged, to be retried on a later pass. -/
theorem c4_undecodable_amended
    (hash_text : String → String) (fs : FS) (r : String)
    (record : CacheRecord) (st : Stat)
    (hrd : fs.read r = ReadResult.decodeError) :
    (∀ file_sources now, init_record hash_text fs file_sources r now = none) ∧
    (record.source_type = "file" → fs.stat r = some st →
      ¬((record.file.getD ⟨r, st.st_size, st.st_mtime_ns⟩).size_bytes = st.st_size ∧
        (record.file.getD ⟨r, st.st_size, st.st_mtime_ns⟩).mtime_ns = st.st_mtime_ns) →
      stepRecord hash_text fs r record = ⟨record, false, 1, 0⟩ ∧
      ∀ l, lookupFirst r l = some record →
        (refreshOne hash_text fs r l).sources = l ∧
        (refreshOne hash_text fs r l).changed = false) := by
  constructor
  · intro file_sources now
    unfold init_record
    split
    · cases hst2 : fs.stat r with
      | none => simp
      | some st2 => simp [hrd]
    · rfl
  · intro ht hst hm
    have hstep := stepRecord_read_decode hash_text fs r record st ht hst hm hrd
    refine ⟨hstep, fun l hl => ?_⟩
    rw [refreshOne_lookup_some hash_text fs r l record hl, hstep]
    exact ⟨rfl, rfl⟩

/-- C4 amended witness: the undecodable source "a.txt" under `fsBadText`. -/
theorem c4_witness :
    init_record hashDemo fsBadText ["a.txt"] "a.txt" "t" = none ∧
    stepRecord hashDemo fsBadText "a.txt" recDemo = ⟨recDemo, false, 1, 0⟩ ∧
    (refreshOne hashDemo fsBadText "a.txt" [("a.txt", recDemo)]).sources =
      [("a.txt", recDemo)] := by
  have h := c4_undecodable_amended hashDemo fsBadText "a.txt" recDemo ⟨6, 200⟩
    (by decide)
  have h2 := h.2 (by decide) (by decide) (by decide)
  exact ⟨h.1 ["a.txt"] "t", h2.1,
    (h2.2 [("a.txt", recDemo)] (by decide)).1⟩

/-- C3: for a source id present in the index whose stat and UTF-8 read
both succeed, init_record returns a record with source_type "file",
summary_pending true, empty summary_text, content_hash equal to the hash
of the text just read, and fingerprint (size_bytes, mtime_ns) taken from
the stat; it returns absent when the source id is unknown, the stat fails,
or the read fails or does not decode. -/
theorem c3_init_record_spec
    (hash_text : String → String) (fs : FS) (file_sources : List String)
    (source_id now : String) :
    (∀ st text, source_id ∈ file_sources → fs.stat source_id = some st →
      fs.read source_id = ReadResult.ok text →
      init_record hash_text fs file_sources source_id now =
        some { source_type := "file", content_hash := hash_text text,
               summary_text := "", last_indexed_at := now,
               summary_pending := true,
               file := some ⟨source_id, st.st_size, st.st_mtime_ns⟩ }) ∧
    (source_id ∉ file_sources →
      init_record hash_text fs file_sources source_id now = none) ∧
    (fs.stat source_id = none →
      init_record hash_text fs file_sources source_id now = none) ∧
    ((fs.read source_id = ReadResult.decodeError ∨
      fs.read source_id = ReadResult.osError) →
      init_record hash_text fs file_sources source_id now = none) := by
  refine ⟨?_, ?_, ?_, ?_⟩
  · intro st text hmem hst hrd
    unfold init_record
    rw [if_pos hmem]
    simp [hst, hrd]
  · intro hmem
    unfold init_record
    rw [if_neg hmem]
  · intro hst
    unfold init_record
    split
    · simp [hst]
    · rfl
  · intro hrd
    unfold init_record
    split
    · cases hst : fs.stat source_id with
      | none => simp
      | some st => rcases hrd with h | h <;> simp [h]
    · rfl

/-- C3 witness: a fresh readable source "a.txt" with text "hello!" and
stat (6, 200), plus the absent cases. -/
theorem c3_witness :
    init_record hashDemo fsEdit ["a.txt"] "a.txt" "2024-01-01T00:00:00Z" =
      some { source_type := "file", content_hash := "#hello!",
             summary_text := "", last_indexed_at := "2024-01-01T00:00:00Z",
             summary_pending := true, file := some ⟨"a.txt", 6, 200⟩ } ∧
    init_record hashDemo fsEdit ["a.txt"] "missing.txt" "t" = none ∧
    init_record hashDemo fsStatErr ["a.txt"] "a.txt" "t" = none ∧
    init_record hashDemo fsBadText ["a.txt"] "a.txt" "t" = none := by
  refine ⟨?_, ?_, ?_, ?_⟩
  · exact (c3_init_record_spec hashDemo fsEdit ["a.txt"] "a.txt"
      "2024-01-01T00:00:00Z").1 ⟨6, 200⟩ "hello!" (by decide) (by decide)
      (by decide)
  · exact (c3_init_record_spec hashDemo fsEdit ["a.txt"] "missing.txt"
      "t").2.1 (by decide)
  · exact (c3_init_record_spec hashDemo fsStatErr ["a.txt"] "a.txt"
      "t").2.2.1 (by decide)
  · exact (c3_init_record_spec hashDemo fsBadText ["a.txt"] "a.txt"
      "t").2.2.2 (Or.inl (by decide))

/-- C9: discover returns the empty mapping, without error, when the root
directory does not exist; otherwise its entries are exactly the pairs
(k, "file") where k is the forward-slash-joined root-relative path of a
walked entry that is a regular file whose final name does not start
with ".". -/
theorem c9_discover_spec (t : FSTree) :
    (t.rootExists = false → discover t = []) ∧
    (∀ k v, (k, v) ∈ discover t ↔
      (t.rootExists = true ∧ v = "file" ∧ ∃ e ∈ t.entries, e.isFile = true ∧
        startsWithDot (entryName e.comps) = false ∧
        k = String.intercalate "/" e.comps)) := by
  constructor
  · intro h
    unfold discover
    rw [if_pos h]
  · intro k v
    cases hr : t.rootExists with
    | false =>
      unfold discover
      rw [if_pos hr]
      simp [hr]
    | true =>
      unfold discover
      rw [if_neg (by simp [hr])]
      rw [discoverFold_mem t.entries []
        (fun p hp => absurd hp (List.not_mem_nil p)) k v]
      simp [hr]

/-- C9 witness: in `treeDemo` the file `docs/a.txt` is discovered while
the directory `docs` and the hidden file `.hidden` are not. -/
theorem c9_witness :
    ("docs/a.txt", "file") ∈ discover treeDemo ∧
    ¬((".hidden", "file") ∈ discover treeDemo) := by
  constructor
  · exact ((c9_discover_spec treeDemo).2 "docs/a.txt" "file").mpr
      ⟨by decide, by decide,
       ⟨["docs", "a.txt"], true⟩, by decide, by decide, by decide, by decide⟩
  · intro h
    obtain ⟨-, -, e, he, h1, h2, h3⟩ := ((c9_discover_spec treeDemo).2
      ".hidden" "file").mp h
    have he2 : e = (⟨["docs", "a.txt"], true⟩ : FSEntry) ∨
        e = ⟨["docs"], false⟩ ∨ e = ⟨[".hidden"], true⟩ := by
      simpa [treeDemo] using he
    rcases he2 with he2 | he2 | he2 <;> subst he2
    · exact absurd h3 (by decide)
    · exact absurd h1 (by decide)
    · exact absurd h2 (by decide)

/-- C2: on a fingerprint mismatch with a successful re-read, the refresh
step unconditionally replaces the stored fingerprint with the new stat
values, the resulting content_hash equals the newly computed hash, and
summary_pending is true exactly when the new hash differs from the stored
hash or the record was already pending; summary_text and last_indexed_at
are untouched and the iteration sets changed.  Moreover, over a
duplicate-free source index, refresh returns true iff at least one record
was mutated during the call. -/
theorem c2_refresh_update_and_changed
    (hash_text : String → String) (fs : FS) (r : String)
    (record : CacheRecord) (fm : FileMetadata) (st : Stat) (text : String)
    (ht : record.source_type = "file") (hfm : record.file = some fm)
    (hst : fs.stat r = some st)
    (hm : ¬(fm.size_bytes = st.st_size ∧ fm.mtime_ns = st.st_mtime_ns))
    (hrd : fs.read r = ReadResult.ok text) :
    ((stepRecord hash_text fs r record).record.file =
        some ⟨r, st.st_size, st.st_mtime_ns⟩ ∧
     (stepRecord hash_text fs r record).record.content_hash = hash_text text ∧
     ((stepRecord hash_text fs r record).record.summary_pending = true ↔
        (hash_text text ≠ record.content_hash ∨ record.summary_pending = true)) ∧
     (stepRecord hash_text fs r record).record.summary_text =
        record.summary_text ∧
     (stepRecord hash_text fs r record).record.last_indexed_at =
        record.last_indexed_at ∧
     (stepRecord hash_text fs r record).changed = true) ∧
    (∀ file_sources cache now, List.Nodup file_sources →
      ((refresh hash_text fs file_sources cache now).changed = true ↔
        (refresh hash_text fs file_sources cache now).sources ≠
          cache.sources)) := by
  have hupd := stepRecord_update hash_text fs r record st text ht hst
    (by rw [hfm]; exact hm) hrd
  constructor
  · rw [hupd]
    by_cases hcond : hash_text text ≠ record.content_hash ∨
        record.summary_pending = true
    · rw [if_pos hcond]
      exact ⟨rfl, rfl, by simp [hcond], rfl, rfl, rfl⟩
    · rw [if_neg hcond]
      push_neg at hcond
      refine ⟨rfl, hcond.1.symm, ?_, rfl, rfl, rfl⟩
      constructor
      · intro hp
        exact Or.inr hp
      · rintro (h | h)
        · exact absurd hcond.1 h
        · exact absurd h hcond.2
  · intro file_sources cache now hnd
    exact refreshGo_changed_iff hash_text fs file_sources cache.sources hnd

/-- C2 witness: "a.txt" edited from (5, 100, "hello") to (6, 200, "hello!"). -/
theorem c2_witness :
    (stepRecord hashDemo fsEdit "a.txt" recDemo).record.file =
      some ⟨"a.txt", 6, 200⟩ ∧
    (stepRecord hashDemo fsEdit "a.txt" recDemo).record.content_hash =
      hashDemo "hello!" ∧
    (stepRecord hashDemo fsEdit "a.txt" recDemo).changed = true ∧
    ((refresh hashDemo fsEdit ["a.txt"] ⟨[("a.txt", recDemo)]⟩ "t").changed =
        true ↔
      (refresh hashDemo fsEdit ["a.txt"] ⟨[("a.txt", recDemo)]⟩ "t").sources ≠
        [("a.txt", recDemo)]) := by
  have h := c2_refresh_update_and_changed hashDemo fsEdit "a.txt" recDemo
    ⟨"a.txt", 5, 100⟩ ⟨6, 200⟩ "hello!" (by decide) (by decide) (by decide)
    (by decide) (by decide)
  exact ⟨h.1.1, h.1.2.1, h.1.2.2.2.2.2,
    h.2 ["a.txt"] ⟨[("a.txt", recDemo)]⟩ "t" (by decide)⟩

/-- C6: refresh never adds or removes records — the key sequence of the
cache is unchanged by the call — and both records of a non-"file" source
type and source ids with no cache record are left untouched. -/
theorem c6_refresh_frame
    (hash_text : String → String) (fs : FS) (file_sources : List String)
    (cache : CacheState) (now : String) :
    ((refresh hash_text fs file_sources cache now).sources.map Prod.fst =
      cache.sources.map Prod.fst) ∧
    (∀ r record, lookupFirst r cache.sources = some record →
      record.source_type ≠ "file" →
      lookupFirst r (refresh hash_text fs file_sources cache now).sources =
        some record) ∧
    (∀ r, lookupFirst r cache.sources = none →
      lookupFirst r (refresh hash_text fs file_sources cache now).sources =
        none) := by
  refine ⟨refreshGo_map_fst hash_text fs file_sources cache.sources, ?_, ?_⟩
  · intro r record hlk hty
    obtain ⟨rec2, h1, h2⟩ := refreshGo_lookup_pres hash_text fs
      (fun rec => rec = record)
      (fun rp rec h => by
        subst h
        rw [stepRecord_not_file hash_text fs rp rec hty])
      file_sources cache.sources r record hlk rfl
    rw [h2] at h1
    exact h1
  · intro r hlk
    rw [lookupFirst_eq_none_iff] at hlk ⊢
    unfold refresh
    rw [refreshGo_map_fst hash_text fs file_sources cache.sources]
    exact hlk

/-- C6 witness: a cache holding a "web" record and a file record, refreshed
over an index naming both plus an id absent from the cache. -/
theorem c6_witness :
    ((refresh hashDemo fsEdit ["a.txt", "w", "ghost"]
        ⟨[("a.txt", recDemo), ("w", recWeb)]⟩ "t").sources.map Prod.fst =
      ["a.txt", "w"]) ∧
    lookupFirst "w" (refresh hashDemo fsEdit ["a.txt", "w", "ghost"]
        ⟨[("a.txt", recDemo), ("w", recWeb)]⟩ "t").sources = some recWeb ∧
    lookupFirst "ghost" (refresh hashDemo fsEdit ["a.txt", "w", "ghost"]
        ⟨[("a.txt", recDemo), ("w", recWeb)]⟩ "t").sources = none := by
  have h := c6_refresh_frame hashDemo fsEdit ["a.txt", "w", "ghost"]
    ⟨[("a.txt", recDemo), ("w", recWeb)]⟩ "t"
  exact ⟨h.1.trans (by decide), h.2.1 "w" recWeb (by decide) (by decide),
    h.2.2 "ghost" (by decide)⟩

/-- C7: summary_pending is true on every record produced by init_record,
is set whenever the refresh step changes content_hash, and is never set to
false by a provider operation: any record that is pending before a refresh
call is still pending after it (discover and load_text touch no records at
all). -/
theorem c7_summary_pending_monotone (hash_text : String → String) (fs : FS) :
    (∀ file_sources source_id now rec,
      init_record hash_text fs file_sources source_id now = some rec →
      rec.summary_pending = true) ∧
    (∀ r record,
      (stepRecord hash_text fs r record).record.content_hash ≠
        record.content_hash →
      (stepRecord hash_text fs r record).record.summary_pending = true) ∧
    (∀ file_sources cache now r record,
      lookupFirst r cache.sources = some record →
      record.summary_pending = true →
      ∃ rec2,
        lookupFirst r (refresh hash_text fs file_sources cache now).sources =
          some rec2 ∧ rec2.summary_pending = true) := by
  refine ⟨?_, stepRecord_hash_change_pending hash_text fs, ?_⟩
  · intro file_sources source_id now rec h
    unfold init_record at h
    split at h
    · cases hst : fs.stat source_id with
      | none => simp [hst] at h
      | some st =>
        cases hrd : fs.read source_id with
        | ok text =>
          simp only [hst, hrd, Option.some.injEq] at h
          rw [← h]
        | decodeError => simp [hst, hrd] at h
        | osError => simp [hst, hrd] at h
    · exact absurd h (by simp)
  · intro file_sources cache now r record hlk hp
    exact refreshGo_lookup_pres hash_text fs
      (fun rec => rec.summary_pending = true)
      (fun rp rec h => stepRecord_pending_mono hash_text fs rp rec h)
      file_sources cache.sources r record hlk hp

/-- C7 witness: a record created by init_record is pending, and the
already-pending `recPending` survives a mutating refresh still pending. -/
theorem c7_witness :
    (∀ rec, init_record hashDemo fsEdit ["a.txt"] "a.txt" "t" = some rec →
      rec.summary_pending = true) ∧
    ∃ rec2, lookupFirst "a.txt" (refresh hashDemo fsEdit ["a.txt"]
        ⟨[("a.txt", recPending)]⟩ "t").sources = some rec2 ∧
      rec2.summary_pending = true := by
  have h := c7_summary_pending_monotone hashDemo fsEdit
  exact ⟨fun rec hr => h.1 ["a.txt"] "a.txt" "t" rec hr,
    h.2.2 ["a.txt"] ⟨[("a.txt", recPending)]⟩ "t" "a.txt" recPending
      (by decide) (by decide)⟩

/-- C8 counterexample: the refresh call examines and even mutates the
record for "a.txt" (changed = true), yet its last_indexed_at is not
updated: it keeps its old value, distinct from the formatted current time
passed to the call — refuting that last_indexed_at is updated whenever
refresh examines a record. -/
theorem c8_counterexample :
    (refresh hashDemo fsEdit ["a.txt"] ⟨[("a.txt", recDemo)]⟩
        "2024-01-01T00:00:00Z").changed = true ∧
    (lookupFirst "a.txt" (refresh hashDemo fsEdit ["a.txt"]
        ⟨[("a.txt", recDemo)]⟩ "2024-01-01T00:00:00Z").sources).map
      CacheRecord.last_indexed_at = some "2020-01-01T00:00:00Z" ∧
    ("2020-01-01T00:00:00Z" : String) ≠ "2024-01-01T00:00:00Z" := by
  decide

/-- C8 amended: last_indexed_at is written only at record creation —
init_record sets it to the formatted now — and refresh never modifies it:
after any refresh call every record's last_indexed_at equals its value
before the call (so it never regresses under provider operations). -/
theorem c8_last_indexed_amended (hash_text : String → String) (fs : FS) :
    (∀ file_sources source_id now rec,
      init_record hash_text fs file_sources source_id now = some rec →
      rec.last_indexed_at = now) ∧
    (∀ r record, (stepRecord hash_text fs r record).record.last_indexed_at =
      record.last_indexed_at) ∧
    (∀ file_sources cache now r record,
      lookupFirst r cache.sources = some record →
      ∃ rec2,
        lookupFirst r (refresh hash_text fs file_sources cache now).sources =
          some rec2 ∧ rec2.last_indexed_at = record.last_indexed_at) := by
  refine ⟨?_, stepRecord_last_indexed_at hash_text fs, ?_⟩
  · intro file_sources source_id now rec h
    unfold init_record at h
    split at h
    · cases hst : fs.stat source_id with
      | none => simp [hst] at h
      | some st =>
        cases hrd : fs.read source_id with
        | ok text =>
          simp only [hst, hrd, Option.some.injEq] at h
          rw [← h]
        | decodeError => simp [hst, hrd] at h
        | osError => simp [hst, hrd] at h
    · exact absurd h (by simp)
  · intro file_sources cache now r record hlk
    exact refreshGo_lookup_pres hash_text fs
      (fun rec => rec.last_indexed_at = record.last_indexed_at)
      (fun rp rec h => by
        show (stepRecord hash_text fs rp rec).record.last_indexed_at =
          record.last_indexed_at
        rw [stepRecord_last_indexed_at hash_text fs rp rec]
        exact h)
      file_sources cache.sources r record hlk rfl

/-- C8 amended witness: creation stamps the formatted now; a mutated
record keeps its old stamp through refresh. -/
theorem c8_witness :
    (∀ rec, init_record hashDemo fsEdit ["a.txt"] "a.txt"
        "2024-01-01T00:00:00Z" = some rec →
      rec.last_indexed_at = "2024-01-01T00:00:00Z") ∧
    ∃ rec2, lookupFirst "a.txt" (refresh hashDemo fsEdit ["a.txt"]
        ⟨[("a.txt", recDemo)]⟩ "2024-01-01T00:00:00Z").sources = some rec2 ∧
      rec2.last_indexed_at = recDemo.last_indexed_at := by
  have h := c8_last_indexed_amended hashDemo fsEdit
  exact ⟨fun rec hr =>
      h.1 ["a.txt"] "a.txt" "2024-01-01T00:00:00Z" rec hr,
    h.2.2 ["a.txt"] ⟨[("a.txt", recDemo)]⟩ "2024-01-01T00:00:00Z" "a.txt"
      recDemo (by decide)⟩
